import Mathlib

/-!
Shallow embedding of the memory allocator in `mem_manage.c` (repository
24fa-351/memory-allocator-Mbaldo), together with proofs about the claims of
its specification.

Modelling conventions:
* Addresses and sizes are `Nat`.  `size_t` arithmetic is 64-bit; the places
  where the C code can wrap (the `ALIGN` macro, the split threshold
  `size + sizeof(Block) + ALIGN(1)` and the remainder subtraction
  `block->size - size - sizeof(Block)`) carry an explicit `% 2^64`.
* `struct Block` is `size_t size; bool is_free; struct Block* next;`.
  On the LP64 platform the code targets, `sizeof(Block) = 24`
  (8 bytes `size_t`, 1 byte `bool` + 7 padding, 8 bytes pointer).
  The `next` field is written once in `mm_init` and never read, so it is not
  part of the header record.
* Memory is modelled with two total maps: `hdr` gives the header record
  stored at an address, `bytes` the payload byte at an address.  `sbrk` is
  modelled by a `brk` counter that always succeeds.
* The C loops (`heapify_up`'s while loop, recursive `heapify_down`,
  the coalescing for-loop of `mm_free`) are written with an explicit fuel
  parameter so that all definitions compute by `decide`/`rfl`.  In each case
  the fuel is an upper bound on the number of loop iterations, and when the
  fuel runs out the loop guard is already false, so the fuelled function is
  extensionally the C loop:
  - `heapify_up` moves from `index` to `(index-1)/2`, so it runs at most
    `index` steps; with fuel `index` the invariant `index ≤ fuel` holds at
    every call, and `fuel = 0` forces `index = 0`, where the loop stops.
  - `heapify_down` moves from `index` to a child `< arr.length`, so it runs
    at most `arr.length - index` steps; with fuel `arr.length` the invariant
    `arr.length - index ≤ fuel` holds, and at `fuel = 0` we have
    `index ≥ arr.length`, where both children are out of range and the
    recursion stops.
  - the coalescing loop decreases the measure
    `count*(count+1) + (count - i)` by at least one per iteration (a merge
    lowers `count` by one and restarts at `i = 0`, otherwise `i` increases),
    so `count*(count+1) + count + 1` steps suffice.
-/

namespace MemManage

/-- Header record of a block: the `size` and `is_free` fields of `struct Block`. -/
structure BlockH where
  size : Nat
  is_free : Bool
deriving DecidableEq, Repr

/-- `sizeof(struct Block)` on the LP64 platform: 24 bytes. -/
def HEADER_SIZE : Nat := 24

/-- `#define MAX_HEAP_SIZE 1024`. -/
def MAX_HEAP_SIZE : Nat := 1024

/-- `2^64`, the modulus of `size_t` arithmetic. -/
def W : Nat := 2 ^ 64

/-- `#define ALIGN(size) (((size) + 7) & ~7)` in 64-bit arithmetic. -/
def ALIGN (n : Nat) : Nat := (n + 7) % W / 8 * 8

/-- Pointwise update of a map from addresses. -/
def upd {α : Type} (f : Nat → α) (k : Nat) (v : α) : Nat → α :=
  fun a => if a = k then v else f a

/-- The global state of `mem_manage.c`: the program break (for `sbrk`),
`heap_start`/`heap_size`, the memory contents (header records and payload
bytes), and the free-block min-heap array `heap` (its length is `heap_count`). -/
structure MMState where
  brk : Nat
  heap_start : Option Nat
  heap_size : Nat
  hdr : Nat → BlockH
  bytes : Nat → Nat
  heapArr : List Nat

/-- `heap_start + heap_size`, the end of the arena (`NULL` reads as address 0). -/
def arenaEnd (st : MMState) : Nat := st.heap_start.getD 0 + st.heap_size

/-- `swap(i, j)`: exchange two entries of the heap array. -/
def swapL (arr : List Nat) (i j : Nat) : List Nat :=
  (arr.set i (arr.getD j 0)).set j (arr.getD i 0)

/-- The while loop of `heapify_up`, with fuel. -/
def heapify_up_go (hdr : Nat → BlockH) : Nat → List Nat → Nat → List Nat
  | 0, arr, _ => arr
  | fuel + 1, arr, index =>
    if 0 < index then
      if (hdr (arr.getD index 0)).size < (hdr (arr.getD ((index - 1) / 2) 0)).size then
        heapify_up_go hdr fuel (swapL arr index ((index - 1) / 2)) ((index - 1) / 2)
      else arr
    else arr

/-- `heapify_up(index)`: percolate up; `index` steps always suffice. -/
def heapify_up (hdr : Nat → BlockH) (arr : List Nat) (index : Nat) : List Nat :=
  heapify_up_go hdr index arr index

/-- The `smallest` candidate of `heapify_down` after examining the left
child `2*index+1`. -/
def smallest1 (hdr : Nat → BlockH) (arr : List Nat) (index : Nat) : Nat :=
  if 2 * index + 1 < arr.length ∧
      (hdr (arr.getD (2 * index + 1) 0)).size < (hdr (arr.getD index 0)).size
  then 2 * index + 1 else index

/-- The index `smallest` computed by one round of `heapify_down`:
start from `index`, try the left child `2*index+1`, then the right child. -/
def smallestOf (hdr : Nat → BlockH) (arr : List Nat) (index : Nat) : Nat :=
  if 2 * index + 2 < arr.length ∧
      (hdr (arr.getD (2 * index + 2) 0)).size < (hdr (arr.getD (smallest1 hdr arr index) 0)).size
  then 2 * index + 2 else smallest1 hdr arr index

/-- The recursion of `heapify_down`, with fuel. -/
def heapify_down_go (hdr : Nat → BlockH) : Nat → List Nat → Nat → List Nat
  | 0, arr, _ => arr
  | fuel + 1, arr, index =>
    if smallestOf hdr arr index ≠ index then
      heapify_down_go hdr fuel (swapL arr index (smallestOf hdr arr index))
        (smallestOf hdr arr index)
    else arr

/-- `heapify_down(index)`: percolate down; `arr.length` steps always suffice. -/
def heapify_down (hdr : Nat → BlockH) (arr : List Nat) (index : Nat) : List Nat :=
  heapify_down_go hdr arr.length arr index

/-- `heap_insert(block)`: drop the block if the heap array is full, otherwise
append it at position `heap_count` and percolate up. -/
def heap_insert (st : MMState) (block : Nat) : MMState :=
  if st.heapArr.length ≥ MAX_HEAP_SIZE then st
  else { st with heapArr := heapify_up st.hdr (st.heapArr ++ [block]) st.heapArr.length }

/-- `heap_extract_min()`: return `NULL` on an empty heap, otherwise return
`heap[0]`, move the last entry to the root and percolate down. -/
def heap_extract_min (st : MMState) : Option Nat × MMState :=
  if st.heapArr.isEmpty then (none, st)
  else
    (some (st.heapArr.headD 0),
      { st with
        heapArr :=
          heapify_down st.hdr
            ((st.heapArr.set 0 (st.heapArr.getLast?.getD 0)).dropLast) 0 })

/-- `mm_init(memory_size)`: reject sizes below `MIN_BLOCK_SIZE = sizeof(Block)`,
otherwise obtain `memory_size` bytes via `sbrk`, write the initial header and
insert the initial block into the heap.  The heap array is not cleared. -/
def mm_init (st : MMState) (memory_size : Nat) : MMState :=
  if memory_size < HEADER_SIZE then st
  else
    let start := st.brk
    let st1 : MMState :=
      { st with
        brk := st.brk + memory_size
        heap_start := some start
        heap_size := memory_size
        hdr := upd st.hdr start ⟨memory_size - HEADER_SIZE, true⟩ }
    heap_insert st1 start

/-- The split branch of `mm_malloc` (lines 146-154): carve `new_block` at
`(char*)block + sizeof(Block) + size`, give it the remainder
`block->size - size - sizeof(Block)` (64-bit subtraction), mark it free,
insert it, then shrink `block->size` to `size`. -/
def mm_split (st : MMState) (block size : Nat) : MMState :=
  let newb := block + HEADER_SIZE + size
  let st1 : MMState :=
    { st with
      hdr := upd st.hdr newb
        ⟨((st.hdr block).size + (W - (size + HEADER_SIZE) % W)) % W, true⟩ }
  let st2 := heap_insert st1 newb
  { st2 with hdr := upd st2.hdr block ⟨size, (st2.hdr block).is_free⟩ }

/-- The tail of `mm_malloc` after a successful extraction: fail if the block
is too small, otherwise split when the threshold
`size + sizeof(Block) + ALIGN(1)` is met, mark the block used, zero `size`
bytes of payload and return the payload pointer. -/
def mm_malloc_found (st : MMState) (block size : Nat) : Option Nat × MMState :=
  if (st.hdr block).size < size then (none, st)
  else
    let st2 :=
      if (st.hdr block).size ≥ (size + HEADER_SIZE + ALIGN 1) % W then
        mm_split st block size
      else st
    let st3 : MMState := { st2 with hdr := upd st2.hdr block ⟨(st2.hdr block).size, false⟩ }
    (some (block + HEADER_SIZE),
      { st3 with
        bytes := fun a =>
          if block + HEADER_SIZE ≤ a ∧ a < block + HEADER_SIZE + size then 0
          else st3.bytes a })

/-- `mm_malloc(size)`. -/
def mm_malloc (st : MMState) (size0 : Nat) : Option Nat × MMState :=
  if size0 = 0 then (none, st)
  else
    match heap_extract_min st with
    | (none, st1) => (none, st1)
    | (some block, st1) => mm_malloc_found st1 block (ALIGN size0)

/-- The body of the coalescing for-loop of `mm_free` (lines 181-195), with
fuel.  A merge adds `sizeof(Block) + next->size` to `current->size`, removes
`heap[i]` (the current block) by moving the last entry into slot `i` and
percolating down, and restarts the scan at `i = 0`. -/
def coalesce_go : Nat → MMState → Nat → MMState
  | 0, st, _ => st
  | fuel + 1, st, i =>
    if i < st.heapArr.length then
      let current := st.heapArr.getD i 0
      if (st.hdr current).is_free then
        let nxt := current + HEADER_SIZE + (st.hdr current).size
        if nxt < arenaEnd st ∧ (st.hdr nxt).is_free then
          let st1 : MMState :=
            { st with
              hdr := upd st.hdr current
                ⟨(st.hdr current).size + HEADER_SIZE + (st.hdr nxt).size,
                  (st.hdr current).is_free⟩ }
          let st2 : MMState :=
            { st1 with
              heapArr :=
                heapify_down st1.hdr
                  ((st1.heapArr.set i (st1.heapArr.getLast?.getD 0)).dropLast) i }
          coalesce_go fuel st2 0
        else coalesce_go fuel st (i + 1)
      else coalesce_go fuel st (i + 1)
    else st

/-- The coalescing pass, with sufficient fuel. -/
def coalesce (st : MMState) : MMState :=
  coalesce_go (st.heapArr.length * (st.heapArr.length + 1) + st.heapArr.length + 1) st 0

/-- `mm_free(ptr)`: reject `NULL` and out-of-arena pointers, otherwise mark
the block at `ptr - sizeof(Block)` free, insert it into the heap, and run the
coalescing pass. -/
def mm_free (st : MMState) (ptr : Option Nat) : MMState :=
  match ptr with
  | none => st
  | some p =>
    if p < st.heap_start.getD 0 ∨ p ≥ st.heap_start.getD 0 + st.heap_size then st
    else
      coalesce
        (heap_insert
          { st with
            hdr := upd st.hdr (p - HEADER_SIZE) ⟨(st.hdr (p - HEADER_SIZE)).size, true⟩ }
          (p - HEADER_SIZE))

/-- `mm_realloc(ptr, size)`. -/
def mm_realloc (st : MMState) (ptr : Option Nat) (size : Nat) : Option Nat × MMState :=
  match ptr with
  | none => mm_malloc st size
  | some p =>
    if size = 0 then (none, mm_free st (some p))
    else
      let block := p - HEADER_SIZE
      if (st.hdr block).size ≥ size then (some p, st)
      else
        match mm_malloc st size with
        | (some new_ptr, st1) =>
          (some new_ptr,
            mm_free
              { st1 with
                bytes := fun a =>
                  if new_ptr ≤ a ∧ a < new_ptr + (st1.hdr block).size then
                    st1.bytes (p + (a - new_ptr))
                  else st1.bytes a }
              (some p))
        | (none, st1) => (none, st1)

/-- `mm_metadata_size()`. -/
def mm_metadata_size : Nat := HEADER_SIZE

/-- `mm_cleanup()`: forget the arena and reset `heap_count` to zero. -/
def mm_cleanup (st : MMState) : MMState :=
  { st with heap_start := none, heap_size := 0, heapArr := [] }

/-- A pristine process state: nothing mapped, empty heap array. -/
def st0 : MMState :=
  { brk := 0, heap_start := none, heap_size := 0
    hdr := fun _ => ⟨0, false⟩, bytes := fun _ => 0, heapArr := [] }

/-- The offsets of the blocks tiling the arena, read off the header chain
starting at `heap_start` (each block is followed by the block at
`this + sizeof(Block) + this->size`).  Each step advances by at least
`HEADER_SIZE ≥ 1` bytes, so `heap_size` steps of fuel always suffice. -/
def blockOffsets_go (st : MMState) : Nat → Nat → List Nat
  | 0, _ => []
  | fuel + 1, o =>
    if o < arenaEnd st then o :: blockOffsets_go st fuel (o + HEADER_SIZE + (st.hdr o).size)
    else []

/-- The blocks of the arena, in address order. -/
def blockOffsets (st : MMState) : List Nat :=
  blockOffsets_go st st.heap_size (st.heap_start.getD 0)

/-- The free-block index invariant of the specification: the index holds no
duplicate reference, every reference is a block of the arena, and an arena
block is in the index exactly when its `is_free` flag is set. -/
def indexInv (st : MMState) : Prop :=
  st.heapArr.Nodup ∧
  (∀ b ∈ st.heapArr, b ∈ blockOffsets st) ∧
  (∀ b ∈ blockOffsets st, (b ∈ st.heapArr ↔ (st.hdr b).is_free = true))

instance (st : MMState) : Decidable (indexInv st) := by
  unfold indexInv; infer_instance

/-- A state whose single free block (payload 40 at offset 0) holds the byte
`7` everywhere: the arena `[0, 64)` is tiled by that one block. -/
def stC : MMState :=
  { brk := 64, heap_start := some 0, heap_size := 64
    hdr := fun a => if a = 0 then ⟨40, true⟩ else ⟨0, false⟩
    bytes := fun _ => 7, heapArr := [0] }

/-- A state with an allocated block (payload 8 at offset 0, payload pointer
24) followed by a free block (payload 40 at offset 32), tiling the arena
`[0, 96)`; the byte at address `a` is `a`. -/
def stR : MMState :=
  { brk := 96, heap_start := some 0, heap_size := 96
    hdr := fun a => if a = 0 then ⟨8, false⟩ else if a = 32 then ⟨40, true⟩ else ⟨0, false⟩
    bytes := fun a => a, heapArr := [32] }

/-- Trace for the coalescing scenario: a 64-byte arena holding exactly two
size-8 allocations (payload pointers 24 and 56), then both freed. -/
def c2_s1 : MMState := mm_init st0 64

/-- After `p1 = mm_malloc(8)` (returns payload pointer 24). -/
def c2_s2 : MMState := (mm_malloc c2_s1 8).2

/-- After `p2 = mm_malloc(8)` (returns payload pointer 56). -/
def c2_s3 : MMState := (mm_malloc c2_s2 8).2

/-- After `mm_free(p1)`. -/
def c2_s4 : MMState := mm_free c2_s3 (some 24)

/-- After `mm_free(p2)`. -/
def c2_s5 : MMState := mm_free c2_s4 (some 56)

/-- The min-heap ordering property of the free-block index array: every
non-root entry is at least as large as its parent.  When it holds, `heap[0]`
is a globally smallest free block. -/
def minHeapProp (st : MMState) : Prop :=
  ∀ i, i < st.heapArr.length → 0 < i →
    (st.hdr (st.heapArr.getD ((i - 1) / 2) 0)).size ≤ (st.hdr (st.heapArr.getD i 0)).size

instance (st : MMState) : Decidable (minHeapProp st) := by
  unfold minHeapProp; infer_instance

section Theorems

theorem upd_same {α : Type} (f : Nat → α) (k : Nat) (v : α) : upd f k v k = v := by
  simp [upd]

theorem upd_ne {α : Type} (f : Nat → α) {a k : Nat} (v : α) (h : a ≠ k) :
    upd f k v a = f a := by
  simp [upd, h]

theorem swapL_length (arr : List Nat) (i j : Nat) : (swapL arr i j).length = arr.length := by
  simp [swapL]

theorem set_getD_perm : ∀ (xs : List Nat) (m x : Nat), m < xs.length →
    List.Perm (xs.getD m 0 :: xs.set m x) (x :: xs)
  | [], m, x, h => by simp at h
  | y :: ys, 0, x, _ => by
      simpa using List.Perm.swap x y ys
  | y :: ys, m + 1, x, h => by
      simp only [List.getD_cons_succ, List.set_cons_succ]
      exact ((List.Perm.swap y (ys.getD m 0) (ys.set m x)).trans
        ((set_getD_perm ys m x (by simpa using h)).cons y)).trans
        (List.Perm.swap x y ys)

theorem swapL_perm : ∀ (l : List Nat) (i j : Nat), i < l.length → j < l.length →
    List.Perm (swapL l i j) l
  | [], _, _, hi, _ => by simp at hi
  | x :: xs, 0, 0, _, _ => by simp [swapL]
  | x :: xs, 0, j + 1, _, hj => by
      simp only [swapL, List.getD_cons_zero, List.getD_cons_succ, List.set_cons_zero,
        List.set_cons_succ]
      exact set_getD_perm xs j x (by simpa using hj)
  | x :: xs, i + 1, 0, hi, _ => by
      simp only [swapL, List.getD_cons_zero, List.getD_cons_succ, List.set_cons_succ,
        List.set_cons_zero]
      exact set_getD_perm xs i x (by simpa using hi)
  | x :: xs, i + 1, j + 1, hi, hj => by
      simp only [swapL, List.getD_cons_succ, List.set_cons_succ]
      exact (swapL_perm xs i j (by simpa using hi) (by simpa using hj)).cons x

theorem heapify_up_go_perm (hdr : Nat → BlockH) : ∀ (fuel : Nat) (arr : List Nat) (index : Nat),
    index < arr.length → List.Perm (heapify_up_go hdr fuel arr index) arr
  | 0, arr, _, _ => List.Perm.refl arr
  | fuel + 1, arr, index, h => by
      simp only [heapify_up_go]
      split
      · split
        · have hp : (index - 1) / 2 < arr.length := by omega
          exact (heapify_up_go_perm hdr fuel _ _ (by rw [swapL_length]; omega)).trans
            (swapL_perm arr index ((index - 1) / 2) h hp)
        · exact List.Perm.refl arr
      · exact List.Perm.refl arr

theorem smallest1_lt (hdr : Nat → BlockH) (arr : List Nat) (index : Nat)
    (h : smallest1 hdr arr index ≠ index) :
    index < smallest1 hdr arr index ∧ smallest1 hdr arr index < arr.length := by
  revert h
  unfold smallest1
  split
  · next h1 => intro _; exact ⟨by omega, h1.1⟩
  · intro h; omega

theorem smallestOf_lt (hdr : Nat → BlockH) (arr : List Nat) (index : Nat)
    (h : smallestOf hdr arr index ≠ index) :
    index < smallestOf hdr arr index ∧ smallestOf hdr arr index < arr.length := by
  revert h
  unfold smallestOf
  split
  · next h2 => intro _; exact ⟨by omega, h2.1⟩
  · intro h
    exact smallest1_lt hdr arr index h

theorem heapify_down_go_perm (hdr : Nat → BlockH) : ∀ (fuel : Nat) (arr : List Nat) (index : Nat),
    List.Perm (heapify_down_go hdr fuel arr index) arr
  | 0, arr, _ => List.Perm.refl arr
  | fuel + 1, arr, index => by
      simp only [heapify_down_go]
      split
      · next hne =>
        obtain ⟨h1, h2⟩ := smallestOf_lt hdr arr index hne
        exact (heapify_down_go_perm hdr fuel _ _).trans
          (swapL_perm arr index _ (by omega) h2)
      · exact List.Perm.refl arr

theorem heapify_down_perm (hdr : Nat → BlockH) (arr : List Nat) (index : Nat) :
    List.Perm (heapify_down hdr arr index) arr :=
  heapify_down_go_perm hdr arr.length arr index

theorem heap_insert_perm (st : MMState) (block : Nat) (h : st.heapArr.length < MAX_HEAP_SIZE) :
    List.Perm (heap_insert st block).heapArr (st.heapArr ++ [block]) := by
  unfold heap_insert
  rw [if_neg (by omega)]
  exact heapify_up_go_perm st.hdr _ _ _ (by simp)

theorem heap_insert_hdr (st : MMState) (block : Nat) : (heap_insert st block).hdr = st.hdr := by
  unfold heap_insert; split <;> rfl

theorem heap_insert_bytes (st : MMState) (block : Nat) :
    (heap_insert st block).bytes = st.bytes := by
  unfold heap_insert; split <;> rfl

theorem heap_insert_start (st : MMState) (block : Nat) :
    (heap_insert st block).heap_start = st.heap_start := by
  unfold heap_insert; split <;> rfl

theorem heap_insert_size (st : MMState) (block : Nat) :
    (heap_insert st block).heap_size = st.heap_size := by
  unfold heap_insert; split <;> rfl

theorem heap_extract_min_nil (st : MMState) (h : st.heapArr = []) :
    heap_extract_min st = (none, st) := by
  simp [heap_extract_min, h]

theorem heap_extract_min_cons (st : MMState) (b : Nat) (t : List Nat) (h : st.heapArr = b :: t) :
    heap_extract_min st =
      (some b,
        { st with
          heapArr :=
            heapify_down st.hdr
              ((st.heapArr.set 0 (st.heapArr.getLast?.getD 0)).dropLast) 0 }) := by
  rw [heap_extract_min, if_neg (by simp [h]), h]
  simp

theorem heap_extract_min_hdr (st : MMState) : (heap_extract_min st).2.hdr = st.hdr := by
  unfold heap_extract_min; split <;> rfl

theorem heap_extract_min_bytes (st : MMState) : (heap_extract_min st).2.bytes = st.bytes := by
  unfold heap_extract_min; split <;> rfl

theorem heap_extract_min_start (st : MMState) :
    (heap_extract_min st).2.heap_start = st.heap_start := by
  unfold heap_extract_min; split <;> rfl

theorem heap_extract_min_size (st : MMState) :
    (heap_extract_min st).2.heap_size = st.heap_size := by
  unfold heap_extract_min; split <;> rfl

theorem heap_extract_min_perm (st : MMState) (b : Nat) (t : List Nat) (h : st.heapArr = b :: t) :
    List.Perm (b :: (heap_extract_min st).2.heapArr) st.heapArr := by
  rw [heap_extract_min_cons st b t h]
  refine List.Perm.trans (List.Perm.cons b (heapify_down_perm _ _ _)) ?_
  rw [h]
  rcases t with _ | ⟨y, ys⟩
  · simp
  · have hne : (y :: ys : List Nat) ≠ [] := by simp
    have hlast : (b :: y :: ys).getLast?.getD 0 = (y :: ys).getLast hne := by
      rw [List.getLast?_eq_getLast (b :: y :: ys) (by simp)]
      simp [List.getLast_cons hne]
    rw [hlast]
    simp only [List.set_cons_zero, List.dropLast_cons₂]
    refine List.Perm.cons b ?_
    have hsplit : (y :: ys).dropLast ++ [(y :: ys).getLast hne] = y :: ys :=
      List.dropLast_append_getLast hne
    have h2 := (List.perm_append_singleton ((y :: ys).getLast hne) ((y :: ys).dropLast)).symm
    rw [hsplit] at h2
    exact h2



theorem coalesce_go_bytes : ∀ (fuel : Nat) (st : MMState) (i : Nat),
    (coalesce_go fuel st i).bytes = st.bytes
  | 0, _, _ => rfl
  | fuel + 1, st, i => by
      simp only [coalesce_go]
      split
      · split
        · split
          · exact coalesce_go_bytes fuel _ _
          · exact coalesce_go_bytes fuel _ _
        · exact coalesce_go_bytes fuel _ _
      · rfl

theorem coalesce_go_start : ∀ (fuel : Nat) (st : MMState) (i : Nat),
    (coalesce_go fuel st i).heap_start = st.heap_start
  | 0, _, _ => rfl
  | fuel + 1, st, i => by
      simp only [coalesce_go]
      split
      · split
        · split
          · exact coalesce_go_start fuel _ _
          · exact coalesce_go_start fuel _ _
        · exact coalesce_go_start fuel _ _
      · rfl

theorem coalesce_go_size : ∀ (fuel : Nat) (st : MMState) (i : Nat),
    (coalesce_go fuel st i).heap_size = st.heap_size
  | 0, _, _ => rfl
  | fuel + 1, st, i => by
      simp only [coalesce_go]
      split
      · split
        · split
          · exact coalesce_go_size fuel _ _
          · exact coalesce_go_size fuel _ _
        · exact coalesce_go_size fuel _ _
      · rfl

theorem coalesce_go_is_free : ∀ (fuel : Nat) (st : MMState) (i x : Nat),
    ((coalesce_go fuel st i).hdr x).is_free = (st.hdr x).is_free
  | 0, _, _, _ => rfl
  | fuel + 1, st, i, x => by
      simp only [coalesce_go]
      split
      · split
        · split
          · rw [coalesce_go_is_free fuel]
            simp only [upd]
            split
            · next hx => subst hx; rfl
            · rfl
          · rw [coalesce_go_is_free fuel]
        · rw [coalesce_go_is_free fuel]
      · rfl

theorem mm_free_bytes (st : MMState) (ptr : Option Nat) :
    (mm_free st ptr).bytes = st.bytes := by
  rcases ptr with _ | p
  · rfl
  · simp only [mm_free]
    split
    · rfl
    · rw [coalesce, coalesce_go_bytes, heap_insert_bytes]

theorem mm_free_start (st : MMState) (ptr : Option Nat) :
    (mm_free st ptr).heap_start = st.heap_start := by
  rcases ptr with _ | p
  · rfl
  · simp only [mm_free]
    split
    · rfl
    · rw [coalesce, coalesce_go_start, heap_insert_start]

theorem mm_free_size (st : MMState) (ptr : Option Nat) :
    (mm_free st ptr).heap_size = st.heap_size := by
  rcases ptr with _ | p
  · rfl
  · simp only [mm_free]
    split
    · rfl
    · rw [coalesce, coalesce_go_size, heap_insert_size]

theorem mm_free_is_free_of_valid (st : MMState) (p : Nat)
    (h1 : st.heap_start.getD 0 ≤ p) (h2 : p < st.heap_start.getD 0 + st.heap_size) :
    ((mm_free st (some p)).hdr (p - HEADER_SIZE)).is_free = true := by
  simp only [mm_free]
  rw [if_neg (by omega)]
  rw [coalesce, coalesce_go_is_free, heap_insert_hdr]
  simp [upd]

theorem mm_malloc_nil (st : MMState) (s : Nat) (hs : s ≠ 0) (h : st.heapArr = []) :
    mm_malloc st s = (none, st) := by
  unfold mm_malloc
  rw [if_neg hs, heap_extract_min_nil st h]

theorem mm_malloc_cons (st : MMState) (s b : Nat) (t : List Nat) (hs : s ≠ 0)
    (h : st.heapArr = b :: t) :
    mm_malloc st s = mm_malloc_found (heap_extract_min st).2 b (ALIGN s) := by
  unfold mm_malloc
  rw [if_neg hs, heap_extract_min_cons st b t h]

theorem mm_malloc_found_none_iff (st : MMState) (block size : Nat) :
    (mm_malloc_found st block size).1 = none ↔ (st.hdr block).size < size := by
  unfold mm_malloc_found
  split
  · next h => simpa using h
  · next h => simp [h]

theorem mm_malloc_found_none_state (st : MMState) (block size : Nat)
    (h : (st.hdr block).size < size) :
    mm_malloc_found st block size = (none, st) := by
  unfold mm_malloc_found
  rw [if_pos h]

theorem mm_malloc_ptr_mem (st : MMState) (u np : Nat) (h : (mm_malloc st u).1 = some np) :
    ∃ e ∈ st.heapArr, np = e + HEADER_SIZE := by
  have hu : u ≠ 0 := by
    rintro rfl
    simp [mm_malloc] at h
  rcases harr : st.heapArr with _ | ⟨b, t⟩
  · rw [mm_malloc_nil st u hu harr] at h
    simp at h
  · rw [mm_malloc_cons st u b t hu harr] at h
    unfold mm_malloc_found at h
    split at h
    · simp at h
    · simp only [Prod.fst, Option.some.injEq] at h
      exact ⟨b, by simp [harr], h.symm⟩

theorem minHeap_root_le (st : MMState) (h : minHeapProp st) (i : Nat)
    (hi : i < st.heapArr.length) :
    (st.hdr (st.heapArr.getD 0 0)).size ≤ (st.hdr (st.heapArr.getD i 0)).size := by
  revert hi
  induction i using Nat.strong_induction_on with
  | _ i ih =>
    intro hi
    rcases Nat.eq_zero_or_pos i with h0 | h0
    · subst h0; exact le_refl _
    · exact le_trans (ih ((i - 1) / 2) (by omega) (by omega)) (h i hi h0)

theorem mem_getD_of_mem (l : List Nat) (c : Nat) (hc : c ∈ l) :
    ∃ i, i < l.length ∧ l.getD i 0 = c := by
  obtain ⟨i, hi, hgi⟩ := List.mem_iff_getElem.1 hc
  exact ⟨i, hi, by rw [List.getD_eq_getElem l 0 hi]; exact hgi⟩

/-- C1 — code-bug evidence.  From a fresh `mm_init(64)` the index invariant
holds; the single free block has payload 40, so `mm_malloc(48)` fails, but
`heap_extract_min` has already removed that block from the index and the
failure path never reinserts it, leaving a block whose `is_free` flag is true
absent from the index: the invariant is not preserved by `mm_malloc`. -/
theorem malloc_fail_breaks_index_invariant :
    indexInv (mm_init st0 64) ∧
    (mm_malloc (mm_init st0 64) 48).1 = none ∧
    ¬ indexInv (mm_malloc (mm_init st0 64) 48).2 := by decide

/-- C2 — code-bug evidence.  With two address-adjacent allocated blocks of
payload 8 each (`p1 = 24`, `p2 = 56`) tiling the whole arena, freeing both
does merge the two blocks in memory (the block at offset 0 becomes a free
block of payload `8 + 8 + 24 = 40`), but the coalescing loop removes the
*merged* block from the index (`heap[i] = heap[--heap_count]` removes
`current`, not the absorbed neighbor), so the index retains only the stale
neighbor of payload 8 and the subsequent `mm_malloc(16)` returns null. -/
theorem coalesce_removes_wrong_block :
    (mm_malloc c2_s1 8).1 = some 24 ∧
    (mm_malloc c2_s2 8).1 = some 56 ∧
    c2_s5.hdr 0 = ⟨40, true⟩ ∧
    c2_s5.heapArr = [32] ∧
    c2_s5.hdr 32 = ⟨8, true⟩ ∧
    (mm_malloc c2_s5 16).1 = none := by decide

/-- C7 — confirmed.  After `mm_init(1024)`, the call
`mm_malloc(1024 - mm_metadata_size())` succeeds (it returns the payload
pointer 24), and an immediately following `mm_malloc(1)` returns null. -/
theorem exact_capacity_scenario :
    (mm_malloc (mm_init st0 1024) (1024 - mm_metadata_size)).1 = some 24 ∧
    (mm_malloc (mm_malloc (mm_init st0 1024) (1024 - mm_metadata_size)).2 1).1 = none := by
  decide

/-- C6 — counterexample.  In the state `stC` the only free block has payload
40 and every byte of memory is 7.  `mm_malloc(16)` succeeds and returns that
block without splitting it (40 < 16 + 24 + 8), so the block keeps payload
size 40, yet only `align(16) = 16` payload bytes are zero-filled: the byte at
payload offset 16 still reads 7, refuting "zero-fills the block's entire
payload". -/
theorem malloc_partial_zero_fill_counterexample :
    (mm_malloc stC 16).1 = some 24 ∧
    ((mm_malloc stC 16).2.hdr 0).size = 40 ∧
    ((mm_malloc stC 16).2.hdr 0).is_free = false ∧
    (mm_malloc stC 16).2.bytes (24 + 16) = 7 := by decide

/-- C8 — counterexample.  `24 < HEADER_SIZE + 1`, so the claim requires
`mm_init(24)` to fail and leave the allocator uninitialized with an empty
index; the code compares against `MIN_BLOCK_SIZE = sizeof(Block) = 24` with
a strict `<`, so `mm_init(24)` succeeds, creating an arena with one free
block of payload 0 in the index. -/
theorem init_24_succeeds_counterexample :
    24 < HEADER_SIZE + 1 ∧
    (mm_init st0 24).heap_start = some 0 ∧
    (mm_init st0 24).heapArr = [0] ∧
    (mm_init st0 24).hdr 0 = ⟨0, true⟩ := by decide

/-- C5 — counterexample.  In `stR` the pointer 24 is a valid allocated
pointer of payload size 8.  The claim instantiated at `s = 0 ≤ 8 = oldSize`
requires `mm_realloc(24, 0)` to return the pointer 24 unchanged, but the code
frees the block and returns null. -/
theorem realloc_zero_size_counterexample :
    (stR.hdr (24 - HEADER_SIZE)).size = 8 ∧
    (stR.hdr (24 - HEADER_SIZE)).is_free = false ∧
    (mm_realloc stR (some 24) 0).1 = none := by decide


/-- C3 — confirmed (under the min-heap ordering property of the index).
For `s > 0`, `mm_malloc(s)` returns null exactly when the index is empty or
the globally smallest free block in the index has payload size below
`align(s)`; in particular the call fails in that case even when a larger
sufficient free block exists elsewhere in the index, since the right-hand
side only mentions the minimum. -/
theorem malloc_oom_iff (st : MMState) (s : Nat) (hs : s ≠ 0) (hheap : minHeapProp st) :
    (mm_malloc st s).1 = none ↔
      st.heapArr = [] ∨
        ∃ b ∈ st.heapArr, (st.hdr b).size < ALIGN s ∧
          ∀ c ∈ st.heapArr, (st.hdr b).size ≤ (st.hdr c).size := by
  rcases harr : st.heapArr with _ | ⟨b, t⟩
  · rw [mm_malloc_nil st s hs harr]
    simp
  · rw [mm_malloc_cons st s b t hs harr, mm_malloc_found_none_iff, heap_extract_min_hdr]
    have hroot : st.heapArr.getD 0 0 = b := by rw [harr]; rfl
    have hforall : ∀ c ∈ b :: t, (st.hdr b).size ≤ (st.hdr c).size := by
      intro c hc
      rw [← harr] at hc
      obtain ⟨i, hi, hgi⟩ := mem_getD_of_mem st.heapArr c hc
      have := minHeap_root_le st hheap i hi
      rw [hroot, hgi] at this
      exact this
    constructor
    · intro hlt
      exact Or.inr ⟨b, List.mem_cons_self b t, hlt, hforall⟩
    · rintro (hnil | ⟨c, hc, hlt, -⟩)
      · simp at hnil
      · exact lt_of_le_of_lt (hforall c hc) hlt

/-- Witness for `malloc_oom_iff`: the hypotheses hold in the concrete state
`stC` (one free block of payload 40) with `s = 48`, and there the call
returns null because `40 < align(48)`. -/
theorem malloc_oom_iff_witness :
    (48 ≠ 0 ∧ minHeapProp stC) ∧
      ((mm_malloc stC 48).1 = none ↔
        stC.heapArr = [] ∨
          ∃ b ∈ stC.heapArr, (stC.hdr b).size < ALIGN 48 ∧
            ∀ c ∈ stC.heapArr, (stC.hdr b).size ≤ (stC.hdr c).size) :=
  ⟨⟨by decide, by decide⟩, malloc_oom_iff stC 48 (by decide) (by decide)⟩

/-- C9 — counterexample to the claim's final clause.  After the failing
`mm_malloc(48)` on `stC` leaks block 0 (`is_free` still true, index empty),
a later `mm_free(24)` — `mm_free` accepts any in-arena pointer — re-inserts
the leaked block into the index, and the `mm_malloc(40)` after that returns
its payload pointer 24: a later free and a later allocation do reach the
leaked block through the index again, refuting "no later allocation or free
can ever reach that block through the index again". -/
theorem leaked_block_reinserted_counterexample :
    (mm_malloc stC 48).1 = none ∧
    ((mm_malloc stC 48).2.hdr 0).is_free = true ∧
    (mm_malloc stC 48).2.heapArr = [] ∧
    (mm_free (mm_malloc stC 48).2 (some 24)).heapArr = [0] ∧
    (mm_malloc (mm_free (mm_malloc stC 48).2 (some 24)) 40).1 = some 24 := by decide

/-- C9 — amended.  When `mm_malloc(s)` (with `s > 0`) finds a non-empty
index whose extracted smallest block `b` has payload size below `align(s)`,
the call returns null but is not state-preserving: `b` has been removed from
the index and the call never reinserts it, memory (headers and bytes) is
untouched, so `b`'s `is_free` flag is still true while the index no longer
references it, and the immediately following `mm_malloc` cannot return `b`'s
payload pointer.  (The block is not unreachable forever: a later `mm_free`
of its payload pointer re-inserts it, see the counterexample.) -/
theorem malloc_fail_leaks_block (st : MMState) (s b : Nat) (t : List Nat)
    (hs : s ≠ 0) (harr : st.heapArr = b :: t) (hsmall : (st.hdr b).size < ALIGN s)
    (hfree : (st.hdr b).is_free = true) (hnotin : b ∉ t) :
    (mm_malloc st s).1 = none ∧
    (mm_malloc st s).2.hdr = st.hdr ∧
    (mm_malloc st s).2.bytes = st.bytes ∧
    b ∉ (mm_malloc st s).2.heapArr ∧
    (mm_malloc st s).2.heapArr.length = t.length ∧
    ((mm_malloc st s).2.hdr b).is_free = true ∧
    ∀ u, (mm_malloc (mm_malloc st s).2 u).1 ≠ some (b + HEADER_SIZE) := by
  have hPerm : List.Perm (b :: (heap_extract_min st).2.heapArr) st.heapArr :=
    heap_extract_min_perm st b t harr
  have hPerm' : List.Perm (heap_extract_min st).2.heapArr t := by
    rw [harr] at hPerm
    exact hPerm.cons_inv
  have hsmall' : ((heap_extract_min st).2.hdr b).size < ALIGN s := by
    rw [heap_extract_min_hdr]; exact hsmall
  have hM : mm_malloc st s = (none, (heap_extract_min st).2) := by
    rw [mm_malloc_cons st s b t hs harr,
      mm_malloc_found_none_state _ _ _ hsmall']
  rw [hM]
  have hbnotin : b ∉ (heap_extract_min st).2.heapArr := fun hmem =>
    hnotin (hPerm'.subset hmem)
  refine ⟨rfl, heap_extract_min_hdr st, heap_extract_min_bytes st, hbnotin,
    hPerm'.length_eq, by rw [heap_extract_min_hdr]; exact hfree, ?_⟩
  intro u hu
  obtain ⟨e, he, hnp⟩ := mm_malloc_ptr_mem _ u _ hu
  have : e = b := by omega
  exact hbnotin (this ▸ he)

/-- Witness for `malloc_fail_leaks_block`: in `stC` (index `[0]`, block 0
free with payload 40), `mm_malloc(48)` exhibits the leak. -/
theorem malloc_fail_leaks_block_witness :
    (48 ≠ 0 ∧ stC.heapArr = 0 :: [] ∧ (stC.hdr 0).size < ALIGN 48 ∧
      (stC.hdr 0).is_free = true ∧ 0 ∉ ([] : List Nat)) ∧
      ((mm_malloc stC 48).1 = none ∧
        (mm_malloc stC 48).2.hdr = stC.hdr ∧
        (mm_malloc stC 48).2.bytes = stC.bytes ∧
        0 ∉ (mm_malloc stC 48).2.heapArr ∧
        (mm_malloc stC 48).2.heapArr.length = ([] : List Nat).length ∧
        ((mm_malloc stC 48).2.hdr 0).is_free = true ∧
        ∀ u, (mm_malloc (mm_malloc stC 48).2 u).1 ≠ some (0 + HEADER_SIZE)) :=
  ⟨⟨by decide, by decide, by decide, by decide, by decide⟩,
    malloc_fail_leaks_block stC 48 0 [] (by decide) (by decide) (by decide)
      (by decide) (by decide)⟩

/-- C10 — confirmed.  `mm_init` never clears the free-block index: when the
index is not full and the capacity is accepted, the resulting index is a
permutation of the old entries together with the new arena's initial block
(at the old program break), so every prior entry survives; an undersized
`mm_init` leaves the index unchanged; only `mm_cleanup` resets it to empty. -/
theorem init_preserves_index (st : MMState) (sz : Nat)
    (hlen : st.heapArr.length < MAX_HEAP_SIZE) (hsz : HEADER_SIZE ≤ sz) :
    List.Perm (mm_init st sz).heapArr (st.heapArr ++ [st.brk]) ∧
    (∀ b ∈ st.heapArr, b ∈ (mm_init st sz).heapArr) ∧
    (∀ sz', sz' < HEADER_SIZE → (mm_init st sz').heapArr = st.heapArr) ∧
    (mm_cleanup st).heapArr = [] := by
  have hperm : List.Perm (mm_init st sz).heapArr (st.heapArr ++ [st.brk]) := by
    unfold mm_init
    rw [if_neg (by omega)]
    exact heap_insert_perm _ st.brk hlen
  refine ⟨hperm, ?_, ?_, rfl⟩
  · intro b hb
    exact hperm.mem_iff.2 (List.mem_append_left _ hb)
  · intro sz' hsz'
    unfold mm_init
    rw [if_pos hsz']

/-- Witness for `init_preserves_index`: starting from `stC` (index `[0]`),
`mm_init(24)` keeps the old entry and adds the new block at the break. -/
theorem init_preserves_index_witness :
    (stC.heapArr.length < MAX_HEAP_SIZE ∧ HEADER_SIZE ≤ 24) ∧
      (List.Perm (mm_init stC 24).heapArr (stC.heapArr ++ [stC.brk]) ∧
        (∀ b ∈ stC.heapArr, b ∈ (mm_init stC 24).heapArr) ∧
        (∀ sz', sz' < HEADER_SIZE → (mm_init stC sz').heapArr = stC.heapArr) ∧
        (mm_cleanup stC).heapArr = []) :=
  ⟨⟨by decide, by decide⟩, init_preserves_index stC 24 (by decide) (by decide)⟩

/-- C8 — amended.  From any state with an empty index, `mm_init(c)` fails
and changes nothing exactly when `c < HEADER_SIZE` (not `HEADER_SIZE + 1`:
`c = HEADER_SIZE` is accepted); otherwise it creates an arena of exactly `c`
bytes whose single initial block, at the arena start, has payload size
`c - HEADER_SIZE`, is flagged free, and is the only entry in the index. -/
theorem init_spec (st : MMState) (c : Nat) (hfresh : st.heapArr = []) :
    (c < HEADER_SIZE → mm_init st c = st) ∧
    (HEADER_SIZE ≤ c →
      (mm_init st c).heap_start = some st.brk ∧
      (mm_init st c).heap_size = c ∧
      (mm_init st c).hdr st.brk = ⟨c - HEADER_SIZE, true⟩ ∧
      (mm_init st c).heapArr = [st.brk]) := by
  constructor
  · intro h
    unfold mm_init
    rw [if_pos h]
  · intro h
    unfold mm_init
    rw [if_neg (by omega)]
    unfold heap_insert
    rw [if_neg (by simp [hfresh]; decide)]
    refine ⟨rfl, rfl, ?_, ?_⟩
    · exact upd_same _ _ _
    · simp [hfresh, heapify_up, heapify_up_go]

/-- Witness for `init_spec`: from the pristine state, `mm_init(10)` is a
no-op while `mm_init(100)` builds the expected single-block arena. -/
theorem init_spec_witness :
    (st0.heapArr = [] ∧ (10 : Nat) < HEADER_SIZE ∧ HEADER_SIZE ≤ 100) ∧
      (10 < HEADER_SIZE → mm_init st0 10 = st0) ∧
      (HEADER_SIZE ≤ 100 →
        (mm_init st0 100).heap_start = some st0.brk ∧
        (mm_init st0 100).heap_size = 100 ∧
        (mm_init st0 100).hdr st0.brk = ⟨100 - HEADER_SIZE, true⟩ ∧
        (mm_init st0 100).heapArr = [st0.brk]) :=
  ⟨⟨by decide, by decide, by decide⟩, (init_spec st0 10 (by decide)).1,
    (init_spec st0 100 (by decide)).2⟩


theorem heap_insert_mem_self (st : MMState) (block : Nat)
    (h : st.heapArr.length < MAX_HEAP_SIZE) :
    block ∈ (heap_insert st block).heapArr :=
  (heap_insert_perm st block h).mem_iff.2
    (List.mem_append_right _ (List.mem_singleton_self _))

/-- C6 — amended.  When `mm_malloc(s)` (with `s > 0`) succeeds on the block
`b` at the head of the index, it marks `b` used, zero-fills `align(s)` bytes
of the payload (the entire payload only when the block was split down to
`align(s)` or already had exactly that size), and returns the payload pointer
`b + headerSize`, which lies strictly inside the arena with `align(s)`
zero-filled bytes available at it. -/
theorem malloc_success_spec (st : MMState) (s b a : Nat) (t : List Nat)
    (hs : s ≠ 0) (harr : st.heapArr = b :: t) (hok : ALIGN s ≤ (st.hdr b).size)
    (hstart : st.heap_start = some a) (hlo : a ≤ b)
    (hhi : b + HEADER_SIZE + (st.hdr b).size ≤ a + st.heap_size)
    (hsW : s + 7 < W) :
    (mm_malloc st s).1 = some (b + HEADER_SIZE) ∧
    ((mm_malloc st s).2.hdr b).is_free = false ∧
    (∀ j, j < ALIGN s → (mm_malloc st s).2.bytes (b + HEADER_SIZE + j) = 0) ∧
    a < b + HEADER_SIZE ∧ b + HEADER_SIZE < a + st.heap_size := by
  have hsA : 8 ≤ ALIGN s := by
    have h7 : (s + 7) % W = s + 7 := Nat.mod_eq_of_lt hsW
    unfold ALIGN
    rw [h7]
    omega
  have hH : HEADER_SIZE = 24 := rfl
  rw [mm_malloc_cons st s b t hs harr]
  simp only [mm_malloc_found, heap_extract_min_hdr]
  rw [if_neg (by omega)]
  refine ⟨rfl, ?_, ?_, by omega, by omega⟩
  · simp [upd]
  · intro j hj
    simp only []
    rw [if_pos ⟨by omega, by omega⟩]

/-- Witness for `malloc_success_spec`: in `stC`, `mm_malloc(8)` succeeds on
the free block at offset 0 (payload 40) and zero-fills 8 bytes at pointer 24. -/
theorem malloc_success_spec_witness :
    (8 ≠ 0 ∧ stC.heapArr = 0 :: [] ∧ ALIGN 8 ≤ (stC.hdr 0).size ∧
      stC.heap_start = some 0 ∧ 0 + HEADER_SIZE + (stC.hdr 0).size ≤ 0 + stC.heap_size ∧
      8 + 7 < W) ∧
      ((mm_malloc stC 8).1 = some (0 + HEADER_SIZE) ∧
        ((mm_malloc stC 8).2.hdr 0).is_free = false ∧
        (∀ j, j < ALIGN 8 → (mm_malloc stC 8).2.bytes (0 + HEADER_SIZE + j) = 0) ∧
        0 < 0 + HEADER_SIZE ∧ 0 + HEADER_SIZE < 0 + stC.heap_size) :=
  ⟨⟨by decide, by decide, by decide, by decide, by decide, by decide⟩,
    malloc_success_spec stC 8 0 0 [] (by decide) (by decide) (by decide) (by decide)
      (by decide) (by decide) (by decide)⟩

/-- C4 — confirmed.  During a successful `mm_malloc(s)` on the extracted
block `b`: if `b`'s payload is at least `align(s) + headerSize + 8`, the
block is split — its payload becomes exactly `align(s)`, a new block is
carved at offset `headerSize + align(s)` from `b` with payload
`old - align(s) - headerSize`, marked free and inserted into the index;
below that threshold no split occurs and `b` keeps its full payload size. -/
theorem malloc_split_spec (st : MMState) (s b : Nat) (t : List Nat)
    (hs : s ≠ 0) (harr : st.heapArr = b :: t)
    (hlen : st.heapArr.length ≤ MAX_HEAP_SIZE)
    (hok : ALIGN s ≤ (st.hdr b).size)
    (hW : ALIGN s + HEADER_SIZE + 8 < W) (hbs : (st.hdr b).size < W) :
    (mm_malloc st s).1 = some (b + HEADER_SIZE) ∧
    (ALIGN s + HEADER_SIZE + 8 ≤ (st.hdr b).size →
      ((mm_malloc st s).2.hdr b).size = ALIGN s ∧
      ((mm_malloc st s).2.hdr (b + HEADER_SIZE + ALIGN s)).size
        = (st.hdr b).size - ALIGN s - HEADER_SIZE ∧
      ((mm_malloc st s).2.hdr (b + HEADER_SIZE + ALIGN s)).is_free = true ∧
      (b + HEADER_SIZE + ALIGN s) ∈ (mm_malloc st s).2.heapArr) ∧
    ((st.hdr b).size < ALIGN s + HEADER_SIZE + 8 →
      ((mm_malloc st s).2.hdr b).size = (st.hdr b).size) := by
  have hA1 : ALIGN 1 = 8 := by decide
  have hEhdr : (heap_extract_min st).2.hdr = st.hdr := heap_extract_min_hdr st
  have hmod : (ALIGN s + HEADER_SIZE + 8) % W = ALIGN s + HEADER_SIZE + 8 :=
    Nat.mod_eq_of_lt hW
  have hPerm0 := heap_extract_min_perm st b t harr
  rw [harr] at hPerm0
  have hPerm' : List.Perm (heap_extract_min st).2.heapArr t := hPerm0.cons_inv
  rw [mm_malloc_cons st s b t hs harr]
  simp only [mm_malloc_found, hEhdr, hA1]
  rw [hmod, if_neg (by omega)]
  have hne : b ≠ b + HEADER_SIZE + ALIGN s := by
    have : 0 < HEADER_SIZE := by decide
    omega
  refine ⟨rfl, ?_, ?_⟩
  · intro hsplit
    rw [if_pos (by omega)]
    simp only [mm_split, hEhdr, heap_insert_hdr]
    have hrem :
        ((st.hdr b).size + (W - (ALIGN s + HEADER_SIZE) % W)) % W
          = (st.hdr b).size - ALIGN s - HEADER_SIZE := by
      have h1 : (ALIGN s + HEADER_SIZE) % W = ALIGN s + HEADER_SIZE :=
        Nat.mod_eq_of_lt (by omega)
      rw [h1]
      have h2 : (st.hdr b).size + (W - (ALIGN s + HEADER_SIZE))
          = ((st.hdr b).size - ALIGN s - HEADER_SIZE) + W := by omega
      rw [h2, Nat.add_mod_right]
      exact Nat.mod_eq_of_lt (by omega)
    refine ⟨?_, ?_, ?_, ?_⟩
    · simp [upd, hne]
    · simp [upd, hne, hne.symm, hrem]
    · simp [upd, hne, hne.symm]
    · have hlt : (heap_extract_min st).2.heapArr.length < MAX_HEAP_SIZE := by
        have := hPerm'.length_eq
        rw [harr] at hlen
        simp at hlen
        omega
      exact heap_insert_mem_self _ _ hlt
  · intro hnosplit
    rw [if_neg (by omega)]
    simp [upd, hEhdr]


/-- Witness for `malloc_split_spec`: in `stC` (free block of payload 40),
`mm_malloc(8)` meets the split threshold (`8 + 24 + 8 = 40 ≤ 40`): the block
shrinks to payload 8 and the remainder block at offset 32 (payload 8) is
free and indexed. -/
theorem malloc_split_spec_witness :
    (8 ≠ 0 ∧ stC.heapArr = 0 :: [] ∧ stC.heapArr.length ≤ MAX_HEAP_SIZE ∧
      ALIGN 8 ≤ (stC.hdr 0).size ∧ ALIGN 8 + HEADER_SIZE + 8 < W ∧
      (stC.hdr 0).size < W) ∧
      ((mm_malloc stC 8).1 = some (0 + HEADER_SIZE) ∧
        (ALIGN 8 + HEADER_SIZE + 8 ≤ (stC.hdr 0).size →
          ((mm_malloc stC 8).2.hdr 0).size = ALIGN 8 ∧
          ((mm_malloc stC 8).2.hdr (0 + HEADER_SIZE + ALIGN 8)).size
            = (stC.hdr 0).size - ALIGN 8 - HEADER_SIZE ∧
          ((mm_malloc stC 8).2.hdr (0 + HEADER_SIZE + ALIGN 8)).is_free = true ∧
          (0 + HEADER_SIZE + ALIGN 8) ∈ (mm_malloc stC 8).2.heapArr) ∧
        ((stC.hdr 0).size < ALIGN 8 + HEADER_SIZE + 8 →
          ((mm_malloc stC 8).2.hdr 0).size = (stC.hdr 0).size)) :=
  ⟨⟨by decide, by decide, by decide, by decide, by decide, by decide⟩,
    malloc_split_spec stC 8 0 [] (by decide) (by decide) (by decide) (by decide)
      (by decide) (by decide)⟩


theorem mm_split_start (st : MMState) (block size : Nat) :
    (mm_split st block size).heap_start = st.heap_start := by
  simp only [mm_split]
  rw [heap_insert_start]

theorem mm_split_size (st : MMState) (block size : Nat) :
    (mm_split st block size).heap_size = st.heap_size := by
  simp only [mm_split]
  rw [heap_insert_size]

theorem mm_split_bytes (st : MMState) (block size : Nat) :
    (mm_split st block size).bytes = st.bytes := by
  simp only [mm_split]
  rw [heap_insert_bytes]

theorem mm_split_hdr_outside (st : MMState) (block size x : Nat)
    (hx : x ≠ block) (hx2 : x ≠ block + HEADER_SIZE + size) :
    (mm_split st block size).hdr x = st.hdr x := by
  simp only [mm_split]
  rw [upd_ne _ _ hx, heap_insert_hdr]
  exact upd_ne _ _ hx2

theorem mm_malloc_none_state (st : MMState) (s : Nat) (h : (mm_malloc st s).1 = none) :
    (mm_malloc st s).2.hdr = st.hdr ∧ (mm_malloc st s).2.bytes = st.bytes := by
  by_cases hs0 : s = 0
  · subst hs0
    exact ⟨rfl, rfl⟩
  · rcases harr : st.heapArr with _ | ⟨b, t⟩
    · rw [mm_malloc_nil st s hs0 harr]
      exact ⟨rfl, rfl⟩
    · rw [mm_malloc_cons st s b t hs0 harr] at h ⊢
      by_cases hcmp : ((heap_extract_min st).2.hdr b).size < ALIGN s
      · rw [mm_malloc_found_none_state _ _ _ hcmp]
        exact ⟨heap_extract_min_hdr st, heap_extract_min_bytes st⟩
      · exfalso
        simp only [mm_malloc_found] at h
        rw [if_neg hcmp] at h
        simp at h

theorem mm_malloc_writes_within (st : MMState) (s np : Nat) (hs : s ≠ 0)
    (hW : ALIGN s + HEADER_SIZE + 8 < W)
    (h : (mm_malloc st s).1 = some np) :
    ∃ e, e ∈ st.heapArr ∧ np = e + HEADER_SIZE ∧ ALIGN s ≤ (st.hdr e).size ∧
      (mm_malloc st s).2.heap_start = st.heap_start ∧
      (mm_malloc st s).2.heap_size = st.heap_size ∧
      (∀ x, x < e ∨ e + HEADER_SIZE + (st.hdr e).size ≤ x →
        (mm_malloc st s).2.hdr x = st.hdr x) ∧
      (∀ x, x < e + HEADER_SIZE ∨ e + HEADER_SIZE + (st.hdr e).size ≤ x →
        (mm_malloc st s).2.bytes x = st.bytes x) := by
  have hH : HEADER_SIZE = 24 := rfl
  have hA1 : ALIGN 1 = 8 := by decide
  have hmod : (ALIGN s + HEADER_SIZE + 8) % W = ALIGN s + HEADER_SIZE + 8 :=
    Nat.mod_eq_of_lt hW
  rcases harr : st.heapArr with _ | ⟨b, t⟩
  · rw [mm_malloc_nil st s hs harr] at h
    simp at h
  · have hEhdr := heap_extract_min_hdr st
    have hEbytes := heap_extract_min_bytes st
    have hEstart := heap_extract_min_start st
    have hEsize := heap_extract_min_size st
    rw [mm_malloc_cons st s b t hs harr] at h ⊢
    by_cases hcmp : ((heap_extract_min st).2.hdr b).size < ALIGN s
    · rw [mm_malloc_found_none_state _ _ _ hcmp] at h
      simp at h
    · have hok : ALIGN s ≤ (st.hdr b).size := by
        rw [hEhdr] at hcmp
        omega
      simp only [mm_malloc_found] at h ⊢
      rw [if_neg hcmp] at h ⊢
      simp only [Option.some.injEq] at h
      refine ⟨b, List.mem_cons_self b t, h.symm, hok, ?_⟩
      rw [hA1, hmod]
      split
      · next hcond =>
        rw [hEhdr] at hcond
        refine ⟨?_, ?_, ?_, ?_⟩
        · exact (mm_split_start _ _ _).trans hEstart
        · exact (mm_split_size _ _ _).trans hEsize
        · intro x hx
          have hxb : x ≠ b := by omega
          have hxn : x ≠ b + HEADER_SIZE + ALIGN s := by omega
          exact (upd_ne _ _ hxb).trans
            ((mm_split_hdr_outside _ _ _ _ hxb hxn).trans (congrFun hEhdr x))
        · intro x hx
          exact (if_neg (by omega)).trans
            ((congrFun (mm_split_bytes _ _ _) x).trans (congrFun hEbytes x))
      · next hcond =>
        refine ⟨?_, ?_, ?_, ?_⟩
        · exact hEstart
        · exact hEsize
        · intro x hx
          have hxb : x ≠ b := by omega
          exact (upd_ne _ _ hxb).trans (congrFun hEhdr x)
        · intro x hx
          exact (if_neg (by omega)).trans (congrFun hEbytes x)


/-- C5 — amended.  For a valid allocated pointer `p` (payload size
`oldSize`, block disjoint from every indexed free block) and `s > 0`:
with `s ≤ oldSize`, `mm_realloc(p, s)` returns `p` with no state change
(`s = 0` instead frees `p` and returns null, see the counterexample); with
`s > oldSize` it either fails, returning null with headers and bytes — in
particular the original block — completely untouched, or returns a new
pointer whose first `oldSize` bytes equal the old payload's bytes, the old
block being freed. -/
theorem realloc_spec (st : MMState) (p s a : Nat)
    (hstart : st.heap_start = some a)
    (hlo : a ≤ p) (hhi : p < a + st.heap_size) (hp : HEADER_SIZE ≤ p)
    (hdisj : ∀ c ∈ st.heapArr,
      c + HEADER_SIZE + (st.hdr c).size ≤ p - HEADER_SIZE ∨
        p + (st.hdr (p - HEADER_SIZE)).size ≤ c)
    (hs : s ≠ 0) (hW : ALIGN s + HEADER_SIZE + 8 < W) :
    (s ≤ (st.hdr (p - HEADER_SIZE)).size → mm_realloc st (some p) s = (some p, st)) ∧
    ((st.hdr (p - HEADER_SIZE)).size < s →
      ((mm_malloc st s).1 = none →
        mm_realloc st (some p) s = (none, (mm_malloc st s).2) ∧
        (mm_malloc st s).2.hdr = st.hdr ∧
        (mm_malloc st s).2.bytes = st.bytes) ∧
      (∀ np, (mm_malloc st s).1 = some np →
        (mm_realloc st (some p) s).1 = some np ∧
        (∀ j, j < (st.hdr (p - HEADER_SIZE)).size →
          (mm_realloc st (some p) s).2.bytes (np + j) = st.bytes (p + j)) ∧
        ((mm_realloc st (some p) s).2.hdr (p - HEADER_SIZE)).is_free = true)) := by
  have hH : HEADER_SIZE = 24 := rfl
  constructor
  · intro hle
    simp only [mm_realloc]
    rw [if_neg hs, if_pos hle]
  · intro hgt
    constructor
    · intro hnone
      obtain ⟨hh, hb⟩ := mm_malloc_none_state st s hnone
      have hM2 : mm_malloc st s = (none, (mm_malloc st s).2) := by
        rw [← hnone]
      refine ⟨?_, hh, hb⟩
      simp only [mm_realloc]
      rw [if_neg hs, if_neg (by omega), hM2]
    · intro np hsome
      obtain ⟨e, he, hnp, hesz, hstart1, hsize1, hhdr1, hbytes1⟩ :=
        mm_malloc_writes_within st s np hs hW hsome
      have hd := hdisj e he
      have hbhdr : (mm_malloc st s).2.hdr (p - HEADER_SIZE) = st.hdr (p - HEADER_SIZE) :=
        hhdr1 _ (by omega)
      have hM2 : mm_malloc st s = (some np, (mm_malloc st s).2) := by
        rw [← hsome]
      simp only [mm_realloc]
      rw [if_neg hs, if_neg (by omega), hM2]
      refine ⟨rfl, ?_, ?_⟩
      · intro j hj
        exact (congrFun (mm_free_bytes _ _) _).trans
          ((if_pos ⟨Nat.le_add_right np j, by rw [hbhdr]; omega⟩).trans
            (by rw [show np + j - np = j by omega]
                exact hbytes1 (p + j) (by omega)))
      · exact mm_free_is_free_of_valid _ p
          (by simpa [hstart1, hstart] using hlo)
          (by simpa [hstart1, hstart, hsize1] using hhi)

/-- Witness for `realloc_spec`: in `stR` the pointer 24 (payload 8) is
reallocated: with `s = 16 > 8` the inner `mm_malloc` succeeds at pointer 56,
the 8 old bytes are copied there, and the old block is freed. -/
theorem realloc_spec_witness :
    (stR.heap_start = some 0 ∧ 0 ≤ 24 ∧ 24 < 0 + stR.heap_size ∧ HEADER_SIZE ≤ 24 ∧
      (∀ c ∈ stR.heapArr,
        c + HEADER_SIZE + (stR.hdr c).size ≤ 24 - HEADER_SIZE ∨
          24 + (stR.hdr (24 - HEADER_SIZE)).size ≤ c) ∧
      16 ≠ 0 ∧ ALIGN 16 + HEADER_SIZE + 8 < W) ∧
      ((16 ≤ (stR.hdr (24 - HEADER_SIZE)).size →
          mm_realloc stR (some 24) 16 = (some 24, stR)) ∧
        ((stR.hdr (24 - HEADER_SIZE)).size < 16 →
          ((mm_malloc stR 16).1 = none →
            mm_realloc stR (some 24) 16 = (none, (mm_malloc stR 16).2) ∧
            (mm_malloc stR 16).2.hdr = stR.hdr ∧
            (mm_malloc stR 16).2.bytes = stR.bytes) ∧
          (∀ np, (mm_malloc stR 16).1 = some np →
            (mm_realloc stR (some 24) 16).1 = some np ∧
            (∀ j, j < (stR.hdr (24 - HEADER_SIZE)).size →
              (mm_realloc stR (some 24) 16).2.bytes (np + j) = stR.bytes (24 + j)) ∧
            ((mm_realloc stR (some 24) 16).2.hdr (24 - HEADER_SIZE)).is_free = true))) :=
  ⟨⟨by decide, by decide, by decide, by decide, by decide, by decide, by decide⟩,
    realloc_spec stR 24 16 0 (by decide) (by decide) (by decide) (by decide)
      (by decide) (by decide) (by decide)⟩

end Theorems

end MemManage
